import Mathlib

/-!
# mandelbrotlib: escape-time evaluators, supersampling and colour mapping

A shallow embedding of `mandelbrotlib.go`.

* Numbers.  `float64`, `complex128` and `*big.Float` values are modelled by the
  elements of a linearly ordered field `K`, with exact arithmetic (no rounding).
  The definitions are polymorphic in `K`, so they run on `ℚ` and can be reasoned
  about on `ℝ`.  The library function `math.Hypot`, through which `cmplx.Abs`
  is computed, is a parameter `hypot` of the fixed-precision evaluator; in exact
  real arithmetic it is `fun p q => Real.sqrt (p * p + q * q)`.
* `uint8` values are natural numbers, every `uint8` operation reduced `% 256`.
* A run-time panic (integer division by zero) is an `Except.error`.
-/

namespace Mandelbrotlib

/-! ## Numbers -/

/-- Go `complex128`: a pair of `float64` parts. -/
structure Complex128 (K : Type) where
  re : K
  im : K
deriving DecidableEq, Repr

namespace Complex128

variable {K : Type} [LinearOrderedField K]

/-- The zero value of a `var v complex128`. -/
def zero : Complex128 K := ⟨0, 0⟩

/-- Complex addition, part by part. -/
def add (x y : Complex128 K) : Complex128 K := ⟨x.re + y.re, x.im + y.im⟩

/-- Complex multiplication `(a+bi)(c+di) = (ac-bd) + (ad+bc)i`. -/
def mul (x y : Complex128 K) : Complex128 K :=
  ⟨x.re * y.re - x.im * y.im, x.re * y.im + x.im * y.re⟩

end Complex128

section Evaluators

variable {K : Type} [LinearOrderedField K]

/-- The function `cmplx.Abs(x)`, which is `math.Hypot(real(x), imag(x))`. -/
def cmplxAbs (hypot : K → K → K) (x : Complex128 K) : K := hypot x.re x.im

/-- The method `x.Cmp(y)` of `big.Float`: `-1` if `x < y`, `0` if `x == y`, `+1` if `x > y`. -/
def Cmp (x y : K) : Int := if x < y then -1 else if x = y then 0 else 1

/-- The constant `iterations` of both evaluators. -/
def iterations : Nat := 200

/-- The loop shared by `mandelbrotCmplx128` and `mandelbrotBigFloat`:
```go
for n := uint8(0); n < iterations; n++ {
    <update v>
    if <v has escaped> { return n }
}
return 0
```
entered with counter `n` and value `v`; `step` is the update of `v` and `escaped` the test. -/
def escapeLoop {σ : Type} (step : σ → σ) (escaped : σ → Bool) (n : Nat) (v : σ) : Nat :=
  if n < iterations then
    let v' := step v
    if escaped v' then n
    else escapeLoop step escaped ((n + 1) % 256) v'
  else 0
termination_by iterations - n
decreasing_by simp only [iterations] at *; omega

/-- Function `mandelbrotCmplx128(z complex128) uint8`: `v = v*v + z`, `cmplx.Abs(v) > 2`.
The `float64` operations are taken exactly: rounding is not modelled. -/
def mandelbrotCmplx128 (hypot : K → K → K) (z : Complex128 K) : Nat :=
  escapeLoop (fun v => (v.mul v).add z) (fun v => decide (cmplxAbs hypot v > 2))
    0 Complex128.zero

/-- Function `mandelbrotBigFloat(r, i *big.Float) uint8`.  The loop state is `(vR, vI)`:
`vRn = vR*vR - vI*vI + r`, `vIn = vR*vI*2 + i`, then `abs = vR*vR + vI*vI` on the new
values and the test `abs.Cmp(big.NewFloat(4)) == 1`.  The `big.Float` operations are taken
exactly: the rounding to the precision of the operands is not modelled. -/
def mandelbrotBigFloat (r i : K) : Nat :=
  escapeLoop
    (fun (v : K × K) => (v.1 * v.1 - v.2 * v.2 + r, v.1 * v.2 * 2 + i))
    (fun (v : K × K) => Cmp (v.1 * v.1 + v.2 * v.2) 4 == 1)
    0 (0, 0)

end Evaluators

/-! ## Colours -/

/-- The values of the interface `color.Color` that the library returns: a `color.RGBA{R, G, B, A}`
with `uint8` fields, or a `color.Gray16{Y}` with a `uint16` field. -/
inductive Color where
  | RGBA (R G B A : Nat)
  | Gray16 (Y : Nat)
deriving DecidableEq, Repr

/-- The variable `color.Black`, declared as `Gray16{0}`. -/
def Black : Color := Color.Gray16 0

/-- The method `RGBA() (r, g, b, a uint32)` of `color.Color`: for a `color.RGBA` every field `c`
becomes `c | c << 8`, for a `color.Gray16{Y}` the result is `(Y, Y, Y, 0xffff)`. -/
def Color.components : Color → Nat × Nat × Nat × Nat
  | Color.RGBA R G B A => (R + R * 256, G + G * 256, B + B * 256, A + A * 256)
  | Color.Gray16 Y => (Y, Y, Y, 0xffff)

/-- The `switch` that ends `supersamplingCmplx128` and `supersamplingBigFloat`, on the `uint8`
intensity `p`; products and differences are `uint8` operations. -/
def colorSwitch (p : Nat) : Color :=
  if p ≠ 0 ∧ p < 63 then
    Color.RGBA (p * 4 % 256) 0 0 240
  else if p > 63 ∧ p < 126 then
    Color.RGBA (p * 4 % 256) ((p + 256 - 63) % 256 * 4 % 256) 0 240
  else if p > 126 then
    Color.RGBA (p * 4 % 256) (p * 4 % 256) ((p + 256 - 126) % 256 * 4 % 256) 240
  else
    Black

/-! ## Supersampling -/

/-- A run-time panic of the Go program. -/
inductive Panic where
  | integerDivideByZero
deriving DecidableEq, Repr

section Sampling

variable {K : Type} [LinearOrderedField K]

/-- The statement `x = (p1 + p2 + p3 + p4) / 4` on `uint8` values: the sum is formed left to
right in `uint8`, then divided. -/
def sampleAverage (p1 p2 p3 p4 : Nat) : Nat :=
  (((p1 + p2) % 256 + p3) % 256 + p4) % 256 / 4

/-- The loop `for zoom > 0 { ... ; p += x; zoom-- }` of the two supersampling functions, entered
with the remaining count `zoom` and the accumulator `p`; `esc` is the escape-time evaluator of
the backend.  The result is the value of `p` when the loop is left. -/
def samplingLoop (esc : K → K → Nat) (Delta a b : K) : Nat → Nat → Nat
  | 0, p => p
  | zoom + 1, p =>
    let p1 := esc (a + Delta) (b + Delta)
    let p2 := esc (a + Delta) (b - Delta)
    let p3 := esc (a - Delta) (b - Delta)
    let p4 := esc (a - Delta) (b + Delta)
    let x := sampleAverage p1 p2 p3 p4
    samplingLoop esc Delta a b zoom ((p + x) % 256)

/-- The part of the supersampling functions before the `switch`: the value of `p` after
`p /= zo`, or the panic of that division when `zo` is `0`. -/
def intensity (esc : K → K → Nat) (Delta a b : K) (zoom : Nat) : Except Panic Nat :=
  let p := if zoom = 1 then esc a b else 0
  let zo := zoom
  let p := samplingLoop esc Delta a b zoom p
  if zo = 0 then Except.error Panic.integerDivideByZero else Except.ok (p / zo)

/-- Function `supersamplingCmplx128(a, b float64, zoom uint8) color.Color`; `Delta` is the
package variable it reads. -/
def supersamplingCmplx128 (hypot : K → K → K) (Delta : K) (a b : K) (zoom : Nat) :
    Except Panic Color :=
  (intensity (fun x y => mandelbrotCmplx128 hypot ⟨x, y⟩) Delta a b zoom).map colorSwitch

/-- Function `supersamplingBigFloat(a, b, Delta *big.Float, zoom uint8) color.Color`. -/
def supersamplingBigFloat (a b Delta : K) (zoom : Nat) : Except Panic Color :=
  (intensity (fun x y => mandelbrotBigFloat x y) Delta a b zoom).map colorSwitch

end Sampling

/-! ## Configuration, coordinates and the image -/

/-- The constant `xmin` of `xmin, ymin, xmax, ymax = -2, -2, +2, +2`, an untyped integer
constant. -/
def xmin : Int := -2

/-- The constant `ymin`. -/
def ymin : Int := -2

/-- The constant `xmax`. -/
def xmax : Int := 2

/-- The constant `ymax`. -/
def ymax : Int := 2

/-- The package variables `Width`, `Height` and `Delta`. -/
structure Config (K : Type) where
  Width : Int
  Height : Int
  Delta : K

section Image

variable {K : Type} [LinearOrderedField K]

/-- The package variables after package initialisation:
`Width = 1024`, `Height = 1024`, `Delta = 0.3 / float64(Width)`. -/
def Config.init : Config K :=
  let Width : Int := 1024
  let Height : Int := 1024
  { Width := Width, Height := Height, Delta := 0.3 / (Width : K) }

/-- The assignment `mandelbrotlib.Width = w` of a caller. -/
def Config.setWidth (c : Config K) (w : Int) : Config K := { c with Width := w }

/-- The assignment `mandelbrotlib.Height = h` of a caller. -/
def Config.setHeight (c : Config K) (h : Int) : Config K := { c with Height := h }

/-- The assignment `mandelbrotlib.Delta = d` of a caller. -/
def Config.setDelta (c : Config K) (d : K) : Config K := { c with Delta := d }

/-- The value of `deltabf := big.NewFloat(4 / 1024)` in `GenMandelbrotBigFloat`: `4 / 1024` is a
constant expression of two untyped integer constants, hence an integer division, whose result
is converted to `float64`. -/
def deltabf : K := (((4 : Int) / (1024 : Int) : Int) : K)

/-- The statement `x := float64(px)/float64(Width)*(xmax-xmin) + xmin`. -/
def coordX (c : Config K) (px : Nat) : K :=
  (px : K) / (c.Width : K) * ((xmax - xmin : Int) : K) + (xmin : K)

/-- The statement `y := float64(py)/float64(Height)*(ymax-ymin) + ymin`. -/
def coordY (c : Config K) (py : Nat) : K :=
  (py : K) / (c.Height : K) * ((ymax - ymin : Int) : K) + (ymin : K)

/-- The point `(x, y)` that the loops of `GenMandelbrotCmplx128` and `GenMandelbrotBigFloat`
compute for the pixel `(px, py)`. -/
def coordinate (c : Config K) (px py : Nat) : K × K := (coordX c px, coordY c py)

/-- The conversion `color.RGBAModel.Convert` that `img.Set` applies to the colour it stores: a
`color.RGBA` is kept, any other colour `c` becomes the `color.RGBA` of the high bytes of
`c.RGBA()`. -/
def rgbaModel : Color → Color
  | Color.RGBA R G B A => Color.RGBA R G B A
  | Color.Gray16 Y =>
    match (Color.Gray16 Y).components with
    | (r, g, b, a) => Color.RGBA (r / 256 % 256) (g / 256 % 256) (b / 256 % 256) (a / 256 % 256)

/-- Function `GenMandelbrotCmplx128(w io.Writer, zoom uint8)` up to the call of `png.Encode`:
the pixels of `img`, row `py` by row, each row by column `px`; a panic of a pixel ends the
run. -/
def GenMandelbrotCmplx128 (hypot : K → K → K) (c : Config K) (zoom : Nat) :
    Except Panic (List (List Color)) :=
  (List.range c.Height.toNat).mapM fun py =>
    let y := coordY c py
    (List.range c.Width.toNat).mapM fun px =>
      let x := coordX c px
      (supersamplingCmplx128 hypot c.Delta x y zoom).map rgbaModel

/-- Function `GenMandelbrotBigFloat(w io.Writer, zoom uint8)` up to the call of `png.Encode`;
`big.NewFloat` of a `float64` is exact. -/
def GenMandelbrotBigFloat (c : Config K) (zoom : Nat) : Except Panic (List (List Color)) :=
  let deltabf : K := deltabf
  (List.range c.Height.toNat).mapM fun py =>
    let y := coordY c py
    let by1 := y
    (List.range c.Width.toNat).mapM fun px =>
      let x := coordX c px
      let bx := x
      (supersamplingBigFloat bx by1 deltabf zoom).map rgbaModel

/-- The pixel `(px, py)` of an image given by its rows. -/
def pixelAt (img : List (List Color)) (px py : Nat) : Option Color :=
  (img.get? py).bind fun row => row.get? px

/-- One round of the loop of the supersampling functions on the state `(zoom, p)`: the body
`p1 := ...; p2 := ...; p3 := ...; p4 := ...; x = (p1 + p2 + p3 + p4) / 4; p += x; zoom--`. -/
def samplingRound (esc : K → K → Nat) (Delta a b : K) (s : Nat × Nat) : Nat × Nat :=
  let p1 := esc (a + Delta) (b + Delta)
  let p2 := esc (a + Delta) (b - Delta)
  let p3 := esc (a - Delta) (b - Delta)
  let p4 := esc (a - Delta) (b + Delta)
  let x := sampleAverage p1 p2 p3 p4
  ((s.1 + 256 - 1) % 256, (s.2 + x) % 256)

end Image

/-! ## The orbit of the specification -/

/-- The orbit `v_0 = 0`, `v_(k+1) = v_k * v_k + z` of a point `z`. -/
def orbit {R : Type} [Zero R] [Add R] [Mul R] (z : R) : Nat → R
  | 0 => 0
  | k + 1 => orbit z k * orbit z k + z

/-- The complex number that a `complex128` value stands for. -/
def Complex128.toComplex (v : Complex128 ℝ) : ℂ := ⟨v.re, v.im⟩

/-! ## Theorems -/

theorem escapeLoop_lt {σ : Type} (step : σ → σ) (escaped : σ → Bool) (n : Nat) (v : σ) :
    escapeLoop step escaped n v < iterations := by
  induction n, v using escapeLoop.induct step escaped with
  | case1 n v hn v' he =>
    rw [escapeLoop, if_pos hn]
    simpa [v', he] using hn
  | case2 n v hn v' he ih =>
    rw [escapeLoop, if_pos hn]
    simpa [v', he] using ih
  | case3 n v hn =>
    rw [escapeLoop, if_neg hn]
    decide

/-! ### The escape loop -/

theorem escapeLoop_of_ge {σ : Type} (step : σ → σ) (escaped : σ → Bool) (n : Nat) (v : σ)
    (hn : iterations ≤ n) : escapeLoop step escaped n v = 0 := by
  rw [escapeLoop, if_neg (Nat.not_lt.mpr hn)]

theorem escapeLoop_of_escaped {σ : Type} (step : σ → σ) (escaped : σ → Bool) (n : Nat) (v : σ)
    (hn : n < iterations) (h : escaped (step v) = true) : escapeLoop step escaped n v = n := by
  rw [escapeLoop, if_pos hn]
  simp [h]

theorem escapeLoop_of_not_escaped {σ : Type} (step : σ → σ) (escaped : σ → Bool) (n : Nat)
    (v : σ) (hn : n < iterations) (h : escaped (step v) = false) :
    escapeLoop step escaped n v = escapeLoop step escaped (n + 1) (step v) := by
  have hmod : (n + 1) % 256 = n + 1 := by
    simp only [iterations] at hn
    omega
  rw [escapeLoop, if_pos hn]
  simp [h, hmod]

/-- The loop returns the index of the first update after which the test holds. -/
theorem escapeLoop_first {σ : Type} (step : σ → σ) (escaped : σ → Bool) (j : Nat) :
    ∀ (n : Nat) (v : σ), n + j < iterations → escaped (step^[j + 1] v) = true →
      (∀ i, i < j → escaped (step^[i + 1] v) = false) →
      escapeLoop step escaped n v = n + j := by
  induction j with
  | zero =>
    intro n v hn he _
    exact escapeLoop_of_escaped step escaped n v hn (by simpa using he)
  | succ j ih =>
    intro n v hn he hmin
    have h0 : escaped (step v) = false := by simpa using hmin 0 (Nat.succ_pos j)
    rw [escapeLoop_of_not_escaped step escaped n v (by omega) h0]
    rw [ih (n + 1) (step v) (by omega) (by simpa [Function.iterate_succ_apply] using he)
      (fun i hi => by simpa [Function.iterate_succ_apply] using hmin (i + 1) (by omega))]
    omega

/-- The loop returns `0` when the test holds after none of the remaining updates. -/
theorem escapeLoop_never {σ : Type} (step : σ → σ) (escaped : σ → Bool) (k : Nat) :
    ∀ (n : Nat) (v : σ), iterations ≤ n + k →
      (∀ j, n + j < iterations → escaped (step^[j + 1] v) = false) →
      escapeLoop step escaped n v = 0 := by
  induction k with
  | zero =>
    intro n v hn _
    exact escapeLoop_of_ge step escaped n v (by simpa using hn)
  | succ k ih =>
    intro n v hn h
    by_cases hlt : n < iterations
    · have h0 : escaped (step v) = false := by simpa using h 0 (by simpa using hlt)
      rw [escapeLoop_of_not_escaped step escaped n v hlt h0]
      exact ih (n + 1) (step v) (by omega)
        (fun j hj => by simpa [Function.iterate_succ_apply] using h (j + 1) (by omega))
    · exact escapeLoop_of_ge step escaped n v (Nat.not_lt.mp hlt)

/-- Two loops whose updates and tests correspond along a map of the states return the same. -/
theorem escapeLoop_map {σ τ : Type} (f : σ → τ) (step : σ → σ) (escaped : σ → Bool)
    (step' : τ → τ) (escaped' : τ → Bool) (hs : ∀ v, f (step v) = step' (f v))
    (he : ∀ v, escaped v = escaped' (f v)) (k : Nat) :
    ∀ (n : Nat) (v : σ), iterations ≤ n + k →
      escapeLoop step escaped n v = escapeLoop step' escaped' n (f v) := by
  induction k with
  | zero =>
    intro n v hn
    rw [escapeLoop_of_ge step escaped n v (by simpa using hn),
      escapeLoop_of_ge step' escaped' n (f v) (by simpa using hn)]
  | succ k ih =>
    intro n v hn
    by_cases hlt : n < iterations
    · cases hv : escaped (step v) with
      | true =>
        rw [escapeLoop_of_escaped step escaped n v hlt hv,
          escapeLoop_of_escaped step' escaped' n (f v) hlt (by rw [← hs, ← he, hv])]
      | false =>
        rw [escapeLoop_of_not_escaped step escaped n v hlt hv,
          escapeLoop_of_not_escaped step' escaped' n (f v) hlt (by rw [← hs, ← he, hv]),
          ← hs]
        exact ih (n + 1) (step v) (by omega)
    · rw [escapeLoop_of_ge step escaped n v (Nat.not_lt.mp hlt),
        escapeLoop_of_ge step' escaped' n (f v) (Nat.not_lt.mp hlt)]

/-! ### The two evaluators in exact real arithmetic -/

theorem Cmp_eq_one_iff {K : Type} [LinearOrderedField K] (x y : K) : Cmp x y = 1 ↔ y < x := by
  unfold Cmp
  rcases lt_trichotomy x y with h | h | h
  · simp [h, not_lt_of_lt h]
  · simp [h]
  · simp [h, not_lt_of_lt h, ne_of_gt h]

theorem sqrt_gt_two_iff (s : ℝ) : Real.sqrt s > 2 ↔ 4 < s := by
  rw [gt_iff_lt, Real.lt_sqrt (by norm_num)]
  norm_num

/-- The test of `mandelbrotBigFloat` is the test of `mandelbrotCmplx128`. -/
theorem escaped_bigFloat_eq (a b : ℝ) :
    (Cmp (a * a + b * b) 4 == 1) =
      decide (cmplxAbs (fun p q => Real.sqrt (p * p + q * q)) (Complex128.mk a b) > 2) := by
  have h1 := Cmp_eq_one_iff (a * a + b * b) 4
  have h2 := sqrt_gt_two_iff (a * a + b * b)
  by_cases h : 4 < a * a + b * b
  · have e1 : (Cmp (a * a + b * b) 4 == 1) = true := by simpa using h1.mpr h
    have e2 : decide (cmplxAbs (fun p q => Real.sqrt (p * p + q * q)) (Complex128.mk a b) > 2)
        = true := by simpa [cmplxAbs] using h2.mpr h
    rw [e1, e2]
  · have e1 : (Cmp (a * a + b * b) 4 == 1) = false := by
      simpa using fun hc => h (h1.mp hc)
    have e2 : decide (cmplxAbs (fun p q => Real.sqrt (p * p + q * q)) (Complex128.mk a b) > 2)
        = false := by
      simpa [cmplxAbs] using not_lt.mp (fun hc => h (h2.mp hc))
    rw [e1, e2]

/-- C1: for every input point the escape-time evaluator of each backend returns an integer
`n` with `0 <= n < 200`, whatever the arithmetic and the magnitude comparisons yield: the bound
holds for every number field, every `hypot`, and for the shared loop with any update and test. -/
theorem escape_count_in_range {K : Type} [LinearOrderedField K] (hypot : K → K → K)
    (z : Complex128 K) (r i : K) {σ : Type} (step : σ → σ) (escaped : σ → Bool) (v : σ) :
    (0 ≤ mandelbrotCmplx128 hypot z ∧ mandelbrotCmplx128 hypot z < 200) ∧
    (0 ≤ mandelbrotBigFloat r i ∧ mandelbrotBigFloat r i < 200) ∧
    (0 ≤ escapeLoop step escaped 0 v ∧ escapeLoop step escaped 0 v < 200) :=
  ⟨⟨Nat.zero_le _, escapeLoop_lt _ _ _ _⟩, ⟨Nat.zero_le _, escapeLoop_lt _ _ _ _⟩,
    ⟨Nat.zero_le _, escapeLoop_lt _ _ _ _⟩⟩

/-- The component-wise loop of `mandelbrotBigFloat` and the complex loop of
`mandelbrotCmplx128` run in lockstep. -/
theorem bigFloat_loop_eq_cmplx128_loop (r i : ℝ) :
    mandelbrotBigFloat r i =
      mandelbrotCmplx128 (fun p q => Real.sqrt (p * p + q * q)) (Complex128.mk r i) := by
  unfold mandelbrotBigFloat mandelbrotCmplx128
  exact escapeLoop_map (fun v : ℝ × ℝ => Complex128.mk v.1 v.2) _ _ _ _
    (fun v => by
      simp only [Complex128.mul, Complex128.add, Complex128.mk.injEq]
      exact ⟨trivial, by ring⟩)
    (fun v => escaped_bigFloat_eq v.1 v.2) iterations 0 (0, 0) (by omega)

/-- C3: in exact real arithmetic the two escape-time evaluators agree on every point:
`mandelbrotBigFloat(r, i) = mandelbrotCmplx128(complex(r, i))` for all reals `r` and `i`. -/
theorem mandelbrotBigFloat_eq_mandelbrotCmplx128 (r i : ℝ) :
    mandelbrotBigFloat r i =
      mandelbrotCmplx128 (fun p q => Real.sqrt (p * p + q * q)) (Complex128.mk r i) :=
  bigFloat_loop_eq_cmplx128_loop r i

/-! ### The fixed-precision evaluator and the orbit -/

theorem toComplex_step (z v : Complex128 ℝ) :
    ((v.mul v).add z).toComplex = v.toComplex * v.toComplex + z.toComplex := by
  apply Complex.ext <;> simp [Complex128.toComplex, Complex128.mul, Complex128.add]

theorem toComplex_iterate (z : Complex128 ℝ) (k : Nat) :
    ((fun v : Complex128 ℝ => (v.mul v).add z)^[k] Complex128.zero).toComplex
      = orbit z.toComplex k := by
  induction k with
  | zero =>
    apply Complex.ext <;> simp [Complex128.toComplex, Complex128.zero, orbit]
  | succ k ih =>
    rw [Function.iterate_succ_apply', toComplex_step, ih, orbit]

theorem cmplxAbs_eq_abs (v : Complex128 ℝ) :
    cmplxAbs (fun p q => Real.sqrt (p * p + q * q)) v = Complex.abs v.toComplex := by
  rw [Complex.abs_apply, Complex.normSq_apply]
  rfl

/-- The test of `mandelbrotCmplx128` after `j + 1` updates is `|v_(j+1)| > 2` on the orbit. -/
theorem escaped_iterate_iff (z : Complex128 ℝ) (j : Nat) :
    (fun v : Complex128 ℝ => decide (cmplxAbs (fun p q => Real.sqrt (p * p + q * q)) v > 2))
        ((fun v : Complex128 ℝ => (v.mul v).add z)^[j + 1] Complex128.zero) = true
      ↔ 2 < Complex.abs (orbit z.toComplex (j + 1)) := by
  simp only [decide_eq_true_eq, gt_iff_lt, cmplxAbs_eq_abs, toComplex_iterate]

theorem mandelbrotCmplx128_of_first (z : Complex128 ℝ) (j : Nat) (hj : j < 200)
    (he : 2 < Complex.abs (orbit z.toComplex (j + 1)))
    (hmin : ∀ i, i < j → Complex.abs (orbit z.toComplex (i + 1)) ≤ 2) :
    mandelbrotCmplx128 (fun p q => Real.sqrt (p * p + q * q)) z = j := by
  unfold mandelbrotCmplx128
  rw [escapeLoop_first _ _ j 0 Complex128.zero (by simpa [iterations] using hj)
    ((escaped_iterate_iff z j).mpr he)
    (fun i hi => by
      have h := hmin i hi
      rw [← Bool.not_eq_true, escaped_iterate_iff]
      exact not_lt.mpr h)]
  omega

theorem mandelbrotCmplx128_of_never (z : Complex128 ℝ)
    (h : ∀ n, n < 200 → Complex.abs (orbit z.toComplex (n + 1)) ≤ 2) :
    mandelbrotCmplx128 (fun p q => Real.sqrt (p * p + q * q)) z = 0 := by
  unfold mandelbrotCmplx128
  exact escapeLoop_never _ _ iterations 0 Complex128.zero (by omega)
    (fun j hj => by
      have hj' : j < 200 := by simpa [iterations] using hj
      rw [← Bool.not_eq_true, escaped_iterate_iff]
      exact not_lt.mpr (h j hj'))

/-- C2: with the orbit `v_0 = 0`, `v_(k+1) = v_k * v_k + z` in exact arithmetic,
`mandelbrotCmplx128(z)` is the least `n` in `[0,200)` with `|v_(n+1)| > 2`, and `0` when there
is no such `n`; so it returns `0` exactly when the point escapes on the very first iteration or
does not escape within 200 iterations. -/
theorem mandelbrotCmplx128_eq_least_escape (z : Complex128 ℝ) :
    ((∃ n, n < 200 ∧ 2 < Complex.abs (orbit z.toComplex (n + 1))) →
      IsLeast {n | n < 200 ∧ 2 < Complex.abs (orbit z.toComplex (n + 1))}
        (mandelbrotCmplx128 (fun p q => Real.sqrt (p * p + q * q)) z)) ∧
    ((¬ ∃ n, n < 200 ∧ 2 < Complex.abs (orbit z.toComplex (n + 1))) →
      mandelbrotCmplx128 (fun p q => Real.sqrt (p * p + q * q)) z = 0) ∧
    (mandelbrotCmplx128 (fun p q => Real.sqrt (p * p + q * q)) z = 0 ↔
      (2 < Complex.abs (orbit z.toComplex 1) ∨
        ∀ n, n < 200 → Complex.abs (orbit z.toComplex (n + 1)) ≤ 2)) := by
  classical
  have hleast : ∀ hex : ∃ n, n < 200 ∧ 2 < Complex.abs (orbit z.toComplex (n + 1)),
      mandelbrotCmplx128 (fun p q => Real.sqrt (p * p + q * q)) z = Nat.find hex := by
    intro hex
    obtain ⟨hlt, he⟩ := Nat.find_spec hex
    refine mandelbrotCmplx128_of_first z _ hlt he (fun i hi => ?_)
    have hnot := Nat.find_min hex hi
    exact not_lt.mp (fun hc => hnot ⟨lt_trans hi hlt, hc⟩)
  have hnever : (¬ ∃ n, n < 200 ∧ 2 < Complex.abs (orbit z.toComplex (n + 1))) →
      ∀ n, n < 200 → Complex.abs (orbit z.toComplex (n + 1)) ≤ 2 :=
    fun hno n hn => not_lt.mp (fun hc => hno ⟨n, hn, hc⟩)
  refine ⟨fun hex => ?_, fun hno => mandelbrotCmplx128_of_never z (hnever hno), ?_⟩
  · rw [hleast hex]
    exact ⟨Nat.find_spec hex, fun k hk => Nat.find_min' hex hk⟩
  · constructor
    · intro h0
      by_cases hex : ∃ n, n < 200 ∧ 2 < Complex.abs (orbit z.toComplex (n + 1))
      · left
        have hf : Nat.find hex = 0 := by rw [← hleast hex]; exact h0
        have hs := (Nat.find_spec hex).2
        rw [hf] at hs
        exact hs
      · right
        exact hnever hex
    · rintro (h1 | hall)
      · exact mandelbrotCmplx128_of_first z 0 (by norm_num) h1 (fun i hi => absurd hi (by omega))
      · exact mandelbrotCmplx128_of_never z hall

/-- A point of modulus above `2` leaves the disc at the first update, where `n` is `0`. -/
theorem escape_count_zero_of_sq_gt_four (r i : ℝ) (h : 4 < r * r + i * i) :
    mandelbrotCmplx128 (fun p q => Real.sqrt (p * p + q * q)) (Complex128.mk r i) = 0 ∧
    mandelbrotBigFloat r i = 0 := by
  have hc : mandelbrotCmplx128 (fun p q => Real.sqrt (p * p + q * q)) (Complex128.mk r i) = 0 := by
    unfold mandelbrotCmplx128
    refine escapeLoop_of_escaped _ _ 0 _ (by decide) ?_
    simp only [decide_eq_true_eq, cmplxAbs, Complex128.mul, Complex128.add, Complex128.zero]
    rw [sqrt_gt_two_iff]
    simpa using h
  exact ⟨hc, by rw [bigFloat_loop_eq_cmplx128_loop, hc]⟩

/-- C4, as the code behaves: at the point `3+0i` both evaluators return `0`, the index of the
first pass of the loop; and with all arithmetic taken exactly every point that diverges
immediately, one with `re^2 + im^2 > 4`, is given the escape count `0` by both evaluators. -/
theorem escape_count_of_immediate_divergence (r i : ℝ) (h : 4 < r * r + i * i) :
    (mandelbrotCmplx128 (fun p q => Real.sqrt (p * p + q * q)) (Complex128.mk (3 : ℝ) 0) = 0 ∧
      mandelbrotBigFloat (3 : ℝ) 0 = 0) ∧
    (mandelbrotCmplx128 (fun p q => Real.sqrt (p * p + q * q)) (Complex128.mk r i) = 0 ∧
      mandelbrotBigFloat r i = 0) :=
  ⟨escape_count_zero_of_sq_gt_four 3 0 (by norm_num), escape_count_zero_of_sq_gt_four r i h⟩

/-- C4 at the point `5+5i`, in exact arithmetic: both evaluators return `0`. -/
theorem escape_count_of_immediate_divergence_witness :
    (4 : ℝ) < 5 * 5 + 5 * 5 ∧
    ((mandelbrotCmplx128 (fun p q => Real.sqrt (p * p + q * q)) (Complex128.mk (3 : ℝ) 0) = 0 ∧
      mandelbrotBigFloat (3 : ℝ) 0 = 0) ∧
    (mandelbrotCmplx128 (fun p q => Real.sqrt (p * p + q * q)) (Complex128.mk (5 : ℝ) 5) = 0 ∧
      mandelbrotBigFloat (5 : ℝ) 5 = 0)) :=
  ⟨by norm_num, escape_count_of_immediate_divergence 5 5 (by norm_num)⟩

/-- C4 as stated fails: at `z = 3+0i` neither evaluator returns `1` or `2`. -/
theorem escape_count_three_not_one_or_two :
    ¬ (mandelbrotCmplx128 (fun p q => Real.sqrt (p * p + q * q)) (Complex128.mk (3 : ℝ) 0) = 1 ∨
        mandelbrotCmplx128 (fun p q => Real.sqrt (p * p + q * q)) (Complex128.mk (3 : ℝ) 0) = 2) ∧
    ¬ (mandelbrotBigFloat (3 : ℝ) 0 = 1 ∨ mandelbrotBigFloat (3 : ℝ) 0 = 2) := by
  obtain ⟨hc, hb⟩ := escape_count_zero_of_sq_gt_four 3 0 (by norm_num)
  rw [hc, hb]
  decide

/-! ### The sample aggregator -/

theorem sampleAverage_eq (p1 p2 p3 p4 : Nat) :
    sampleAverage p1 p2 p3 p4 = (p1 + p2 + p3 + p4) % 256 / 4 := by
  unfold sampleAverage
  omega

theorem sampleAverage_le (p1 p2 p3 p4 : Nat) : sampleAverage p1 p2 p3 p4 ≤ 63 := by
  unfold sampleAverage
  omega

/-- The accumulator after `zoom` rounds, from a `uint8` start value `p`. -/
theorem samplingLoop_eq {K : Type} [LinearOrderedField K] (esc : K → K → Nat) (Delta a b : K)
    (zoom : Nat) : ∀ p, p < 256 →
      samplingLoop esc Delta a b zoom p =
        (p + zoom * sampleAverage (esc (a + Delta) (b + Delta)) (esc (a + Delta) (b - Delta))
          (esc (a - Delta) (b - Delta)) (esc (a - Delta) (b + Delta))) % 256 := by
  induction zoom with
  | zero =>
    intro p hp
    simp only [samplingLoop]
    omega
  | succ zoom ih =>
    intro p hp
    simp only [samplingLoop]
    rw [ih _ (Nat.mod_lt _ (by norm_num)), Nat.succ_mul]
    omega

theorem intensity_zero {K : Type} [LinearOrderedField K] (esc : K → K → Nat) (Delta a b : K) :
    intensity esc Delta a b 0 = Except.error Panic.integerDivideByZero := by
  simp [intensity]

theorem intensity_pos {K : Type} [LinearOrderedField K] (esc : K → K → Nat) (Delta a b : K)
    (zoom : Nat) (hz : zoom ≠ 0) :
    intensity esc Delta a b zoom =
      Except.ok (samplingLoop esc Delta a b zoom (if zoom = 1 then esc a b else 0) / zoom) := by
  simp [intensity, hz]

theorem intensity_one {K : Type} [LinearOrderedField K] (esc : K → K → Nat) (Delta a b : K)
    (hc : esc a b < 256) :
    intensity esc Delta a b 1 =
      Except.ok ((esc a b + sampleAverage (esc (a + Delta) (b + Delta))
        (esc (a + Delta) (b - Delta)) (esc (a - Delta) (b - Delta))
        (esc (a - Delta) (b + Delta))) % 256) := by
  rw [intensity_pos esc Delta a b 1 (by decide), if_pos rfl, samplingLoop_eq esc Delta a b 1 _ hc]
  simp

theorem intensity_ge_two {K : Type} [LinearOrderedField K] (esc : K → K → Nat) (Delta a b : K)
    (zoom : Nat) (hz : 2 ≤ zoom) :
    intensity esc Delta a b zoom =
      Except.ok ((zoom * sampleAverage (esc (a + Delta) (b + Delta))
        (esc (a + Delta) (b - Delta)) (esc (a - Delta) (b - Delta))
        (esc (a - Delta) (b + Delta))) % 256 / zoom) := by
  rw [intensity_pos esc Delta a b zoom (by omega), if_neg (by omega),
    samplingLoop_eq esc Delta a b zoom 0 (by norm_num)]
  simp

/-- Where the `uint8` sum does not wrap, the per-round value is the floor of the average. -/
theorem sampleAverage_of_sum_lt (p1 p2 p3 p4 : Nat) (h : p1 + p2 + p3 + p4 < 256) :
    sampleAverage p1 p2 p3 p4 = (p1 + p2 + p3 + p4) / 4 := by
  rw [sampleAverage_eq, Nat.mod_eq_of_lt h]

/-- C5: the code at four escape counts whose sum passes `255`.  For the counts `100`, `100`,
`100`, `100` the `uint8` sum `400` wraps to `144` and the per-round value is `36`, where the
floor of the average is `100`; for `150`, `155`, `42`, `42` the value is `33`, where the floor
of the average is `97`.  One round of the loop adds that value to the accumulator. -/
theorem sampleAverage_wraps :
    sampleAverage 100 100 100 100 = 36 ∧ (100 + 100 + 100 + 100) / 4 = 100 ∧
    sampleAverage 150 155 42 42 = 33 ∧ (150 + 155 + 42 + 42) / 4 = 97 ∧
    samplingLoop (fun _ _ : ℚ => 100) 1 0 0 1 0 = 36 := by
  refine ⟨by decide, by decide, by decide, by decide, ?_⟩
  simp [samplingLoop, sampleAverage]

/-- C6 as stated fails: at `zoom = 1`, with escape count `150` at the centre and `50` at the
four offset points, the final intensity is `200`. -/
theorem intensity_zoom_one_reaches_200 :
    intensity (fun x y : ℚ => if x = 0 ∧ y = 0 then 150 else 50) 1 0 0 1 = Except.ok 200 ∧
    (∀ x y : ℚ, (if x = 0 ∧ y = 0 then 150 else 50) < 200) ∧ ¬ (200 < 200) := by
  refine ⟨by simp [intensity, samplingLoop, sampleAverage], fun x y => ?_, by decide⟩
  split <;> decide

/-- C6, as the code behaves: for `zoom` in `[1,255]` and escape counts in `[0,200)` the
aggregator yields an intensity `p`; for `zoom` in `[2,255]` it lies in `[0,200)`, and for
`zoom = 1` it is `(c + x) mod 256`, below `256`, with `c` the escape count of the centre and
`x` the per-round value. -/
theorem intensity_range {K : Type} [LinearOrderedField K] (esc : K → K → Nat) (Delta a b : K)
    (zoom : Nat) (hz1 : 1 ≤ zoom) (hz : zoom ≤ 255) (hesc : ∀ x y, esc x y < 200) :
    ∃ p, intensity esc Delta a b zoom = Except.ok p ∧ 0 ≤ p ∧
      (2 ≤ zoom → p < 200) ∧
      (zoom = 1 → p < 256 ∧ p = (esc a b + sampleAverage (esc (a + Delta) (b + Delta))
        (esc (a + Delta) (b - Delta)) (esc (a - Delta) (b - Delta))
        (esc (a - Delta) (b + Delta))) % 256) := by
  rcases Nat.lt_or_ge zoom 2 with h | h
  · have h1 : zoom = 1 := by omega
    subst h1
    refine ⟨_, intensity_one esc Delta a b (lt_trans (hesc a b) (by norm_num)), Nat.zero_le _,
      fun h2 => absurd h2 (by decide), fun _ => ⟨Nat.mod_lt _ (by norm_num), rfl⟩⟩
  · refine ⟨_, intensity_ge_two esc Delta a b zoom h, Nat.zero_le _, fun _ => ?_,
      fun h1 => absurd h1 (by omega)⟩
    refine Nat.div_lt_of_lt_mul ?_
    have hlt : (zoom * sampleAverage (esc (a + Delta) (b + Delta))
        (esc (a + Delta) (b - Delta)) (esc (a - Delta) (b - Delta))
        (esc (a - Delta) (b + Delta))) % 256 < 256 := Nat.mod_lt _ (by norm_num)
    omega

/-- C6 at `zoom = 2` with every escape count `100`. -/
theorem intensity_range_witness :
    ∃ p, intensity (fun _ _ : ℚ => 100) 1 0 0 2 = Except.ok p ∧ 0 ≤ p ∧
      (2 ≤ 2 → p < 200) ∧
      (2 = 1 → p < 256 ∧ p = ((fun _ _ : ℚ => 100) (0 : ℚ) (0 : ℚ) +
        sampleAverage ((fun _ _ : ℚ => 100) ((0 : ℚ) + 1) ((0 : ℚ) + 1))
          ((fun _ _ : ℚ => 100) ((0 : ℚ) + 1) ((0 : ℚ) - 1))
          ((fun _ _ : ℚ => 100) ((0 : ℚ) - 1) ((0 : ℚ) - 1))
          ((fun _ _ : ℚ => 100) ((0 : ℚ) - 1) ((0 : ℚ) + 1))) % 256) :=
  intensity_range (fun _ _ : ℚ => 100) 1 0 0 2 (by decide) (by decide)
    (fun _ _ => by norm_num)

/-- C7 as stated fails: at `zoom = 1`, with escape count `0` at the four offset points, the
centre counts `0` and `1` give the intensities `0` and `1`, and the colours black and
`(4, 0, 0, 240)`. -/
theorem centre_count_not_dead :
    intensity (fun _ _ : ℚ => 0) 1 0 0 1 = Except.ok 0 ∧
    intensity (fun x y : ℚ => if x = 0 ∧ y = 0 then 1 else 0) 1 0 0 1 = Except.ok 1 ∧
    colorSwitch 0 = Black ∧ colorSwitch 1 = Color.RGBA 4 0 0 240 ∧
    intensity (fun _ _ : ℚ => 0) 1 0 0 1 ≠
      intensity (fun x y : ℚ => if x = 0 ∧ y = 0 then 1 else 0) 1 0 0 1 := by
  have h0 : intensity (fun _ _ : ℚ => 0) 1 0 0 1 = Except.ok 0 := by
    simp [intensity, samplingLoop, sampleAverage]
  have h1 : intensity (fun x y : ℚ => if x = 0 ∧ y = 0 then 1 else 0) 1 0 0 1 = Except.ok 1 := by
    simp [intensity, samplingLoop, sampleAverage]
  refine ⟨h0, h1, by decide, by decide, ?_⟩
  rw [h0, h1]
  simp

/-- C7, as the code behaves: when `zoom == 1` the escape count `c` of the centre is added to the
per-round value `x`, the final intensity is `(c + x) mod 256`, and for fixed escape counts of
the four offset points two centre counts in `[0,200)` give the same intensity only if they are
equal; for every other `zoom` the centre count is not used. -/
theorem intensity_centre_dependence {K : Type} [LinearOrderedField K] (esc esc' : K → K → Nat)
    (Delta a b : K) (hc : esc a b < 200) (hc' : esc' a b < 200)
    (h1 : esc (a + Delta) (b + Delta) = esc' (a + Delta) (b + Delta))
    (h2 : esc (a + Delta) (b - Delta) = esc' (a + Delta) (b - Delta))
    (h3 : esc (a - Delta) (b - Delta) = esc' (a - Delta) (b - Delta))
    (h4 : esc (a - Delta) (b + Delta) = esc' (a - Delta) (b + Delta)) :
    intensity esc Delta a b 1 =
      Except.ok ((esc a b + sampleAverage (esc (a + Delta) (b + Delta))
        (esc (a + Delta) (b - Delta)) (esc (a - Delta) (b - Delta))
        (esc (a - Delta) (b + Delta))) % 256) ∧
    (intensity esc Delta a b 1 = intensity esc' Delta a b 1 ↔ esc a b = esc' a b) ∧
    (∀ zoom, zoom ≠ 1 → intensity esc Delta a b zoom = intensity esc' Delta a b zoom) := by
  have e := intensity_one esc Delta a b (lt_trans hc (by norm_num))
  have e' := intensity_one esc' Delta a b (lt_trans hc' (by norm_num))
  refine ⟨e, ?_, fun zoom hz => ?_⟩
  · rw [e, e', ← h1, ← h2, ← h3, ← h4]
    constructor
    · intro h
      have h' := Except.ok.inj h
      omega
    · intro h
      rw [h]
  · rcases Nat.eq_zero_or_pos zoom with h0 | hpos
    · subst h0
      rw [intensity_zero, intensity_zero]
    · rw [intensity_ge_two esc Delta a b zoom (by omega),
        intensity_ge_two esc' Delta a b zoom (by omega), h1, h2, h3, h4]

/-- C7 at the point `(0, 0)` with `Delta = 1`: the centre counts `7` and `9`. -/
theorem intensity_centre_dependence_witness :
    intensity (fun x y : ℚ => if x = 0 ∧ y = 0 then 7 else 0) 1 0 0 1 =
      Except.ok (((fun x y : ℚ => if x = 0 ∧ y = 0 then 7 else 0) 0 0 +
        sampleAverage ((fun x y : ℚ => if x = 0 ∧ y = 0 then 7 else 0) (0 + 1) (0 + 1))
          ((fun x y : ℚ => if x = 0 ∧ y = 0 then 7 else 0) (0 + 1) (0 - 1))
          ((fun x y : ℚ => if x = 0 ∧ y = 0 then 7 else 0) (0 - 1) (0 - 1))
          ((fun x y : ℚ => if x = 0 ∧ y = 0 then 7 else 0) (0 - 1) (0 + 1))) % 256) ∧
    (intensity (fun x y : ℚ => if x = 0 ∧ y = 0 then 7 else 0) 1 0 0 1 =
        intensity (fun x y : ℚ => if x = 0 ∧ y = 0 then 9 else 0) 1 0 0 1 ↔
      (fun x y : ℚ => if x = 0 ∧ y = 0 then 7 else 0) 0 0 =
        (fun x y : ℚ => if x = 0 ∧ y = 0 then 9 else 0) 0 0) ∧
    (∀ zoom, zoom ≠ 1 →
      intensity (fun x y : ℚ => if x = 0 ∧ y = 0 then 7 else 0) 1 0 0 zoom =
        intensity (fun x y : ℚ => if x = 0 ∧ y = 0 then 9 else 0) 1 0 0 zoom) :=
  intensity_centre_dependence (fun x y : ℚ => if x = 0 ∧ y = 0 then 7 else 0)
    (fun x y : ℚ => if x = 0 ∧ y = 0 then 9 else 0) 1 0 0
    (by norm_num) (by norm_num) (by norm_num) (by norm_num) (by norm_num) (by norm_num)

/-- C8: the sample aggregator fails exactly when `zoom == 0`: for `zoom = 0` both
supersampling functions end in the panic of the division `p /= zo` and return no colour, and
for every `zoom` in `[1,255]` both return a colour. -/
theorem supersampling_fails_iff_zoom_zero {K : Type} [LinearOrderedField K]
    (hypot : K → K → K) (Delta a b : K) :
    supersamplingCmplx128 hypot Delta a b 0 = Except.error Panic.integerDivideByZero ∧
    supersamplingBigFloat a b Delta 0 = Except.error Panic.integerDivideByZero ∧
    (∀ zoom, 1 ≤ zoom → zoom ≤ 255 →
      (∃ c, supersamplingCmplx128 hypot Delta a b zoom = Except.ok c) ∧
      (∃ c, supersamplingBigFloat a b Delta zoom = Except.ok c)) ∧
    (∀ zoom, (∃ e, supersamplingCmplx128 hypot Delta a b zoom = Except.error e) ↔ zoom = 0) ∧
    (∀ zoom, (∃ e, supersamplingBigFloat a b Delta zoom = Except.error e) ↔ zoom = 0) := by
  have hc0 : supersamplingCmplx128 hypot Delta a b 0 = Except.error Panic.integerDivideByZero := by
    unfold supersamplingCmplx128
    rw [intensity_zero]
    rfl
  have hb0 : supersamplingBigFloat a b Delta 0 = Except.error Panic.integerDivideByZero := by
    unfold supersamplingBigFloat
    rw [intensity_zero]
    rfl
  have hc : ∀ zoom, zoom ≠ 0 → ∃ c, supersamplingCmplx128 hypot Delta a b zoom = Except.ok c := by
    intro zoom hz
    unfold supersamplingCmplx128
    rw [intensity_pos _ Delta a b zoom hz]
    exact ⟨_, rfl⟩
  have hb : ∀ zoom, zoom ≠ 0 → ∃ c, supersamplingBigFloat a b Delta zoom = Except.ok c := by
    intro zoom hz
    unfold supersamplingBigFloat
    rw [intensity_pos _ Delta a b zoom hz]
    exact ⟨_, rfl⟩
  refine ⟨hc0, hb0, fun zoom h1 _ => ⟨hc zoom (by omega), hb zoom (by omega)⟩, ?_, ?_⟩
  · intro zoom
    constructor
    · rintro ⟨e, he⟩
      by_contra hz
      obtain ⟨c, hok⟩ := hc zoom hz
      rw [hok] at he
      cases he
    · rintro rfl
      exact ⟨_, hc0⟩
  · intro zoom
    constructor
    · rintro ⟨e, he⟩
      by_contra hz
      obtain ⟨c, hok⟩ := hb zoom hz
      rw [hok] at he
      cases he
    · rintro rfl
      exact ⟨_, hb0⟩

/-- C9: the colour switch maps each of the boundary intensities `0`, `63` and `126` to
`color.Black`, whose components are `R = G = B = 0` with the full alpha `0xffff`; it is not a
colour of alpha `240`. -/
theorem colorSwitch_boundaries_black :
    colorSwitch 0 = Black ∧ colorSwitch 63 = Black ∧ colorSwitch 126 = Black ∧
    Black.components = (0, 0, 0, 0xffff) ∧
    (∀ R G B, Black ≠ Color.RGBA R G B 240) := by
  refine ⟨by decide, by decide, by decide, by decide, ?_⟩
  intro R G B h
  cases h

/-- C10: for every 8-bit intensity `p` other than `0`, `63` and `126` the colour switch
returns the colour of its band, every channel reduced modulo 256: `(4p, 0, 0, 240)` for
`0 < p < 63`, where `4p` is `p * 4 mod 256`; `(4p mod 256, 4(p-63), 0, 240)` for
`63 < p < 126`; `(4p mod 256, 4p mod 256, 4(p-126) mod 256, 240)` for `p > 126`. -/
theorem colorSwitch_bands (p : Nat) (hp : p < 256) :
    (0 < p ∧ p < 63 → colorSwitch p = Color.RGBA (4 * p) 0 0 240 ∧ 4 * p = p * 4 % 256) ∧
    (63 < p ∧ p < 126 → colorSwitch p = Color.RGBA (4 * p % 256) (4 * (p - 63)) 0 240) ∧
    (126 < p →
      colorSwitch p = Color.RGBA (4 * p % 256) (4 * p % 256) (4 * (p - 126) % 256) 240) := by
  refine ⟨fun h => ?_, fun h => ?_, fun h => ?_⟩
  · have hm : p * 4 % 256 = 4 * p := by omega
    refine ⟨?_, hm.symm⟩
    unfold colorSwitch
    rw [if_pos ⟨by omega, h.2⟩, hm]
  · have hm : p * 4 % 256 = 4 * p % 256 := by omega
    have hg : (p + 256 - 63) % 256 * 4 % 256 = 4 * (p - 63) := by omega
    unfold colorSwitch
    rw [if_neg (by omega), if_pos ⟨h.1, h.2⟩, hm, hg]
  · have hm : p * 4 % 256 = 4 * p % 256 := by omega
    have hg : (p + 256 - 126) % 256 * 4 % 256 = 4 * (p - 126) % 256 := by omega
    unfold colorSwitch
    rw [if_neg (by omega), if_neg (by omega), if_pos h, hm, hg]

/-- C10 at the intensity `200`, of the top band. -/
theorem colorSwitch_bands_witness :
    (0 < 200 ∧ 200 < 63 →
      colorSwitch 200 = Color.RGBA (4 * 200) 0 0 240 ∧ 4 * 200 = 200 * 4 % 256) ∧
    (63 < 200 ∧ 200 < 126 →
      colorSwitch 200 = Color.RGBA (4 * 200 % 256) (4 * (200 - 63)) 0 240) ∧
    (126 < 200 →
      colorSwitch 200 =
        Color.RGBA (4 * 200 % 256) (4 * 200 % 256) (4 * (200 - 126) % 256) 240) :=
  colorSwitch_bands 200 (by decide)

/-! ### Configuration and coordinates -/

theorem deltabf_eq_zero {K : Type} [LinearOrderedField K] : (deltabf : K) = 0 := by
  simp [deltabf]

theorem init_Delta_eq {K : Type} [LinearOrderedField K] :
    (Config.init : Config K).Delta = 0.3 / 1024 := by
  simp [Config.init]

theorem coordX_eq {K : Type} [LinearOrderedField K] (c : Config K) (px : Nat) :
    coordX c px = (px : K) / (c.Width : K) * 4 - 2 := by
  simp only [coordX, xmax, xmin]
  push_cast
  ring

theorem coordY_eq {K : Type} [LinearOrderedField K] (c : Config K) (py : Nat) :
    coordY c py = (py : K) / (c.Height : K) * 4 - 2 := by
  simp only [coordY, ymax, ymin]
  push_cast
  ring

/-- The scaling `t / n * 4 - 2` maps `0 <= t < n` into `[-2, 2)`. -/
theorem scale_mem {K : Type} [LinearOrderedField K] (t n : K) (h0 : 0 ≤ t) (hn : 0 < n)
    (hlt : t < n) : -2 ≤ t / n * 4 - 2 ∧ t / n * 4 - 2 < 2 := by
  have h1 : 0 ≤ t / n := div_nonneg h0 (le_of_lt hn)
  have h2 : t / n < 1 := (div_lt_one hn).mpr hlt
  constructor <;> linarith

/-- The scaling `t / n * 4 - 2` is strictly increasing in `t` for positive `n`. -/
theorem scale_strictMono {K : Type} [LinearOrderedField K] (s t n : K) (hn : 0 < n)
    (hlt : s < t) : s / n * 4 - 2 < t / n * 4 - 2 := by
  have h : s / n < t / n := div_lt_div_of_pos_right hlt hn
  linarith

/-- C11: the code on the two sample deltas.  The fixed-precision `Delta` of the default
configuration is `0.3 / 1024`, which is positive; the arbitrary-precision `deltabf` is the
integer quotient `4 / 1024`, which is `0` and so not positive, and the four offset points
`(a ± deltabf, b ± deltabf)` are the point `(a, b)` itself. -/
theorem deltabf_not_pos {K : Type} [LinearOrderedField K] (a b : K) :
    0 < (Config.init : Config K).Delta ∧ (deltabf : K) = 0 ∧ ¬ (0 < (deltabf : K)) ∧
    (a + deltabf, b + deltabf) = (a, b) ∧ (a + deltabf, b - deltabf) = (a, b) ∧
    (a - deltabf, b - deltabf) = (a, b) ∧ (a - deltabf, b + deltabf) = (a, b) := by
  refine ⟨?_, deltabf_eq_zero, ?_, ?_, ?_, ?_, ?_⟩
  · rw [init_Delta_eq]
    norm_num
  all_goals simp [deltabf_eq_zero]

/-- C14: for positive `Width` and `Height` and every pixel with `0 <= px < Width` and
`0 <= py < Height` the coordinates computed for the pixel lie in the viewport:
`-2 <= x <= 2` and `-2 <= y <= 2`. -/
theorem coord_mem_viewport {K : Type} [LinearOrderedField K] (c : Config K) (px py : Nat)
    (hW : 0 < c.Width) (hH : 0 < c.Height) (hpx : (px : Int) < c.Width)
    (hpy : (py : Int) < c.Height) :
    ((xmin : Int) : K) ≤ coordX c px ∧ coordX c px ≤ ((xmax : Int) : K) ∧
    ((ymin : Int) : K) ≤ coordY c py ∧ coordY c py ≤ ((ymax : Int) : K) := by
  have hx := scale_mem (px : K) (c.Width : K) (Nat.cast_nonneg px) (by exact_mod_cast hW)
    (by exact_mod_cast hpx)
  have hy := scale_mem (py : K) (c.Height : K) (Nat.cast_nonneg py) (by exact_mod_cast hH)
    (by exact_mod_cast hpy)
  rw [coordX_eq, coordY_eq]
  simp only [xmin, xmax, ymin, ymax]
  push_cast
  exact ⟨hx.1, le_of_lt hx.2, hy.1, le_of_lt hy.2⟩

/-- C14 at the pixel `(3, 1)` of a `4 x 4` raster. -/
theorem coord_mem_viewport_witness :
    ((xmin : Int) : ℚ) ≤ coordX ((Config.init.setWidth 4).setHeight 4) 3 ∧
    coordX ((Config.init.setWidth 4).setHeight 4) 3 ≤ ((xmax : Int) : ℚ) ∧
    ((ymin : Int) : ℚ) ≤ coordY ((Config.init.setWidth 4).setHeight 4) 1 ∧
    coordY ((Config.init.setWidth 4).setHeight 4) 1 ≤ ((ymax : Int) : ℚ) :=
  coord_mem_viewport ((Config.init.setWidth 4).setHeight 4) 3 1 (by decide) (by decide)
    (by decide) (by decide)

/-- C15: the coordinate mapper is strictly increasing in each axis, for positive `Width` in
`px` and for positive `Height` in `py`; the `x` of a pixel does not depend on `py` and its `y`
does not depend on `px`. -/
theorem coord_strictMono {K : Type} [LinearOrderedField K] (c : Config K)
    (hW : 0 < c.Width) (hH : 0 < c.Height) :
    (∀ px1 px2 : Nat, px1 < px2 → coordX c px1 < coordX c px2) ∧
    (∀ py1 py2 : Nat, py1 < py2 → coordY c py1 < coordY c py2) ∧
    (∀ px py1 py2 : Nat, (coordinate c px py1).1 = (coordinate c px py2).1) ∧
    (∀ px1 px2 py : Nat, (coordinate c px1 py).2 = (coordinate c px2 py).2) := by
  refine ⟨fun px1 px2 h => ?_, fun py1 py2 h => ?_, fun _ _ _ => rfl, fun _ _ _ => rfl⟩
  · rw [coordX_eq, coordX_eq]
    exact scale_strictMono _ _ _ (by exact_mod_cast hW) (by exact_mod_cast h)
  · rw [coordY_eq, coordY_eq]
    exact scale_strictMono _ _ _ (by exact_mod_cast hH) (by exact_mod_cast h)

/-- C15 on the default `1024 x 1024` raster. -/
theorem coord_strictMono_witness :
    (∀ px1 px2 : Nat, px1 < px2 →
      coordX (Config.init : Config ℚ) px1 < coordX (Config.init : Config ℚ) px2) ∧
    (∀ py1 py2 : Nat, py1 < py2 →
      coordY (Config.init : Config ℚ) py1 < coordY (Config.init : Config ℚ) py2) ∧
    (∀ px py1 py2 : Nat, (coordinate (Config.init : Config ℚ) px py1).1 =
      (coordinate (Config.init : Config ℚ) px py2).1) ∧
    (∀ px1 px2 py : Nat, (coordinate (Config.init : Config ℚ) px1 py).2 =
      (coordinate (Config.init : Config ℚ) px2 py).2) :=
  coord_strictMono (Config.init : Config ℚ) (by decide) (by decide)

/-- C16 as stated fails: after the caller sets `Width = 4`, `Delta` is still `0.3 / 1024` and
not `0.3 / 4`. -/
theorem Delta_not_rederived :
    ((Config.init : Config ℚ).setWidth 4).Width = 4 ∧
    ((Config.init : Config ℚ).setWidth 4).Delta = 0.3 / 1024 ∧
    ((Config.init : Config ℚ).setWidth 4).Delta ≠ 0.3 / ((4 : Int) : ℚ) := by
  refine ⟨rfl, ?_, ?_⟩
  · simp [Config.setWidth, Config.init]
  · simp [Config.setWidth, Config.init]
    norm_num

/-- C16, as the code behaves: `Delta` is computed once, from the default `Width` of `1024`; for
every positive `Width` the caller sets afterwards `Delta` is still `0.3 / 1024`, the render
passes that value to `supersamplingCmplx128`, and it equals `0.3 / Width` only for
`Width = 1024`. -/
theorem Delta_after_setWidth {K : Type} [LinearOrderedField K] (w : Int) (hw : 0 < w) :
    ((Config.init : Config K).setWidth w).Delta = 0.3 / 1024 ∧
    (((Config.init : Config K).setWidth w).Delta = 0.3 / (w : K) ↔ w = 1024) ∧
    (∀ (hypot : K → K → K) (zoom : Nat),
      GenMandelbrotCmplx128 hypot ((Config.init : Config K).setWidth w) zoom =
        GenMandelbrotCmplx128 hypot
          (((Config.init : Config K).setWidth w).setDelta (0.3 / 1024)) zoom) := by
  have hD : ((Config.init : Config K).setWidth w).Delta = 0.3 / 1024 := by
    simp [Config.setWidth, Config.init]
  have hwK : (0 : K) < (w : K) := by exact_mod_cast hw
  refine ⟨hD, ?_, fun hypot zoom => ?_⟩
  · rw [hD]
    constructor
    · intro h
      have h3 : (0.3 : K) ≠ 0 := by norm_num
      have h' : (w : K) = 1024 := by
        field_simp at h
        rcases h with h | h
        · exact h
        · exact absurd h h3
      exact_mod_cast h'
    · intro h
      rw [h]
      norm_num
  · have hc : ((Config.init : Config K).setWidth w).setDelta (0.3 / 1024)
        = (Config.init : Config K).setWidth w := by
      simp [Config.setWidth, Config.setDelta, Config.init]
    rw [hc]

/-- C16 at `Width = 4`. -/
theorem Delta_after_setWidth_witness :
    ((Config.init : Config ℚ).setWidth 4).Delta = 0.3 / 1024 ∧
    (((Config.init : Config ℚ).setWidth 4).Delta = 0.3 / ((4 : Int) : ℚ) ↔ (4 : Int) = 1024) ∧
    (∀ (hypot : ℚ → ℚ → ℚ) (zoom : Nat),
      GenMandelbrotCmplx128 hypot ((Config.init : Config ℚ).setWidth 4) zoom =
        GenMandelbrotCmplx128 hypot
          (((Config.init : Config ℚ).setWidth 4).setDelta (0.3 / 1024)) zoom) :=
  Delta_after_setWidth 4 (by decide)

/-! ### The aggregation loop in closed form -/

/-- The state after `k` rounds of the loop entered with `(zoom, p)`. -/
theorem samplingRound_iterate {K : Type} [LinearOrderedField K] (esc : K → K → Nat)
    (Delta a b : K) (zoom p : Nat) (hz : zoom ≤ 255) (hp : p < 256) (k : Nat) :
    k ≤ zoom → (samplingRound esc Delta a b)^[k] (zoom, p) =
      (zoom - k, (p + k * sampleAverage (esc (a + Delta) (b + Delta))
        (esc (a + Delta) (b - Delta)) (esc (a - Delta) (b - Delta))
        (esc (a - Delta) (b + Delta))) % 256) := by
  induction k with
  | zero =>
    intro _
    simp [Nat.mod_eq_of_lt hp]
  | succ k ih =>
    intro hk
    rw [Function.iterate_succ_apply', ih (by omega)]
    simp only [samplingRound, Prod.mk.injEq, Nat.succ_mul]
    constructor <;> omega

/-- With a product `zoom * x` that does not wrap, the rounds add up to `zoom * x` and the
division by `zoom` gives `x` back. -/
theorem intensity_of_mul_lt {K : Type} [LinearOrderedField K] (esc : K → K → Nat)
    (Delta a b : K) (zoom : Nat) (hz : 2 ≤ zoom)
    (hx : zoom * sampleAverage (esc (a + Delta) (b + Delta)) (esc (a + Delta) (b - Delta))
      (esc (a - Delta) (b - Delta)) (esc (a - Delta) (b + Delta)) < 256) :
    intensity esc Delta a b zoom =
      Except.ok (sampleAverage (esc (a + Delta) (b + Delta)) (esc (a + Delta) (b - Delta))
        (esc (a - Delta) (b - Delta)) (esc (a - Delta) (b + Delta))) := by
  rw [intensity_ge_two esc Delta a b zoom hz, Nat.mod_eq_of_lt hx,
    Nat.mul_div_cancel_left _ (by omega : 0 < zoom)]

/-- C17: closed form of the aggregation loop.  For `zoom` in `[1,255]` and 8-bit escape counts
the final intensity is `((b0 + zoom * x) mod 256) div zoom`, with
`x = ((p1 + p2 + p3 + p4) mod 256) div 4` the same in every round and `b0` the centre count if
`zoom == 1`, else `0`; after `k <= zoom` rounds the counter is `zoom - k`, so the loop
condition `zoom > 0` holds before each of the first `zoom` rounds and fails after them, and
the state then holds the accumulator that the loop returns. -/
theorem intensity_closed_form {K : Type} [LinearOrderedField K] (esc : K → K → Nat)
    (Delta a b : K) (zoom : Nat) (hz1 : 1 ≤ zoom) (hz : zoom ≤ 255) (hc : esc a b < 256) :
    intensity esc Delta a b zoom =
      Except.ok (((if zoom = 1 then esc a b else 0) +
        zoom * ((esc (a + Delta) (b + Delta) + esc (a + Delta) (b - Delta) +
          esc (a - Delta) (b - Delta) + esc (a - Delta) (b + Delta)) % 256 / 4)) % 256 / zoom) ∧
    (∀ k, k ≤ zoom →
      ((samplingRound esc Delta a b)^[k] (zoom, if zoom = 1 then esc a b else 0)).1
        = zoom - k) ∧
    (∀ k, k < zoom →
      0 < ((samplingRound esc Delta a b)^[k] (zoom, if zoom = 1 then esc a b else 0)).1) ∧
    (samplingRound esc Delta a b)^[zoom] (zoom, if zoom = 1 then esc a b else 0) =
      (0, samplingLoop esc Delta a b zoom (if zoom = 1 then esc a b else 0)) := by
  have hb : (if zoom = 1 then esc a b else 0) < 256 := by
    split
    · exact hc
    · norm_num
  have hit := samplingRound_iterate esc Delta a b zoom _ hz hb
  refine ⟨?_, fun k hk => ?_, fun k hk => ?_, ?_⟩
  · rw [intensity_pos esc Delta a b zoom (by omega), samplingLoop_eq esc Delta a b zoom _ hb,
      sampleAverage_eq]
  · rw [hit k hk]
  · rw [hit k (le_of_lt hk)]
    show 0 < zoom - k
    omega
  · rw [hit zoom (le_refl _), samplingLoop_eq esc Delta a b zoom _ hb, Nat.sub_self]

/-- C17 at `zoom = 3` with every escape count `100`. -/
theorem intensity_closed_form_witness :
    intensity (fun _ _ : ℚ => 100) 1 0 0 3 =
      Except.ok (((if 3 = 1 then (fun _ _ : ℚ => 100) (0 : ℚ) (0 : ℚ) else 0) +
        3 * (((fun _ _ : ℚ => 100) ((0 : ℚ) + 1) ((0 : ℚ) + 1) +
          (fun _ _ : ℚ => 100) ((0 : ℚ) + 1) ((0 : ℚ) - 1) +
          (fun _ _ : ℚ => 100) ((0 : ℚ) - 1) ((0 : ℚ) - 1) +
          (fun _ _ : ℚ => 100) ((0 : ℚ) - 1) ((0 : ℚ) + 1)) % 256 / 4)) % 256 / 3) ∧
    (∀ k, k ≤ 3 →
      ((samplingRound (fun _ _ : ℚ => 100) 1 0 0)^[k]
        (3, if 3 = 1 then (fun _ _ : ℚ => 100) (0 : ℚ) (0 : ℚ) else 0)).1 = 3 - k) ∧
    (∀ k, k < 3 →
      0 < ((samplingRound (fun _ _ : ℚ => 100) 1 0 0)^[k]
        (3, if 3 = 1 then (fun _ _ : ℚ => 100) (0 : ℚ) (0 : ℚ) else 0)).1) ∧
    (samplingRound (fun _ _ : ℚ => 100) 1 0 0)^[3]
        (3, if 3 = 1 then (fun _ _ : ℚ => 100) (0 : ℚ) (0 : ℚ) else 0) =
      (0, samplingLoop (fun _ _ : ℚ => 100) 1 0 0 3
        (if 3 = 1 then (fun _ _ : ℚ => 100) (0 : ℚ) (0 : ℚ) else 0)) :=
  intensity_closed_form (fun _ _ : ℚ => 100) 1 0 0 3 (by decide) (by decide) (by norm_num)

/-- C18: the per-round value is at most `63` for all escape counts, and for every `zoom` in
`[2,255]` the final intensity is at most `127`, in both backends. -/
theorem intensity_le_127 {K : Type} [LinearOrderedField K] (esc : K → K → Nat)
    (hypot : K → K → K) (Delta a b : K) (zoom : Nat) (hz2 : 2 ≤ zoom) (hz : zoom ≤ 255) :
    (∀ p1 p2 p3 p4 : Nat, sampleAverage p1 p2 p3 p4 ≤ 63) ∧
    (∃ p, intensity esc Delta a b zoom = Except.ok p ∧ p ≤ 127) ∧
    (∃ p, p ≤ 127 ∧ supersamplingCmplx128 hypot Delta a b zoom = Except.ok (colorSwitch p)) ∧
    (∃ p, p ≤ 127 ∧ supersamplingBigFloat a b Delta zoom = Except.ok (colorSwitch p)) := by
  have hgen : ∀ e : K → K → Nat, ∃ p, intensity e Delta a b zoom = Except.ok p ∧ p ≤ 127 := by
    intro e
    refine ⟨_, intensity_ge_two e Delta a b zoom hz2, ?_⟩
    have hlt : (zoom * sampleAverage (e (a + Delta) (b + Delta)) (e (a + Delta) (b - Delta))
        (e (a - Delta) (b - Delta)) (e (a - Delta) (b + Delta))) % 256 < 256 :=
      Nat.mod_lt _ (by norm_num)
    refine Nat.le_of_lt_succ (Nat.div_lt_of_lt_mul ?_)
    omega
  refine ⟨sampleAverage_le, hgen esc, ?_, ?_⟩
  · obtain ⟨p, hp, hle⟩ := hgen (fun x y => mandelbrotCmplx128 hypot ⟨x, y⟩)
    exact ⟨p, hle, by rw [supersamplingCmplx128, hp]; rfl⟩
  · obtain ⟨p, hp, hle⟩ := hgen (fun x y => mandelbrotBigFloat x y)
    exact ⟨p, hle, by rw [supersamplingBigFloat, hp]; rfl⟩

/-- C18 at `zoom = 2` with every escape count `199`. -/
theorem intensity_le_127_witness :
    (∀ p1 p2 p3 p4 : Nat, sampleAverage p1 p2 p3 p4 ≤ 63) ∧
    (∃ p, intensity (fun _ _ : ℚ => 199) 1 0 0 2 = Except.ok p ∧ p ≤ 127) ∧
    (∃ p, p ≤ 127 ∧
      supersamplingCmplx128 (fun p q : ℚ => p + q) 1 0 0 2 = Except.ok (colorSwitch p)) ∧
    (∃ p, p ≤ 127 ∧ supersamplingBigFloat (0 : ℚ) 0 1 2 = Except.ok (colorSwitch p)) :=
  intensity_le_127 (fun _ _ : ℚ => 199) (fun p q : ℚ => p + q) 1 0 0 2 (by decide) (by decide)

/-- C19: where the accumulator does not wrap the zoom level does not change the result: for
`zoom >= 2` with `zoom * x < 256` the final intensity is the per-round value `x`, and the
colour of both backends is the colour of `x`; for `zoom` in `[2,4]` the product never wraps. -/
theorem intensity_eq_round_value {K : Type} [LinearOrderedField K] (esc : K → K → Nat)
    (Delta a b : K) (zoom : Nat) (hz : 2 ≤ zoom)
    (hx : zoom * sampleAverage (esc (a + Delta) (b + Delta)) (esc (a + Delta) (b - Delta))
      (esc (a - Delta) (b - Delta)) (esc (a - Delta) (b + Delta)) < 256) :
    intensity esc Delta a b zoom =
      Except.ok (sampleAverage (esc (a + Delta) (b + Delta)) (esc (a + Delta) (b - Delta))
        (esc (a - Delta) (b - Delta)) (esc (a - Delta) (b + Delta))) ∧
    (intensity esc Delta a b zoom).map colorSwitch =
      Except.ok (colorSwitch (sampleAverage (esc (a + Delta) (b + Delta))
        (esc (a + Delta) (b - Delta)) (esc (a - Delta) (b - Delta))
        (esc (a - Delta) (b + Delta)))) ∧
    (∀ z, 2 ≤ z → z ≤ 4 → ∀ (e : K → K → Nat),
      intensity e Delta a b z =
        Except.ok (sampleAverage (e (a + Delta) (b + Delta)) (e (a + Delta) (b - Delta))
          (e (a - Delta) (b - Delta)) (e (a - Delta) (b + Delta)))) ∧
    (∀ z, 2 ≤ z → z ≤ 4 → ∀ (hypot : K → K → K),
      supersamplingCmplx128 hypot Delta a b z = supersamplingCmplx128 hypot Delta a b 2 ∧
      supersamplingBigFloat a b Delta z = supersamplingBigFloat a b Delta 2) := by
  have h := intensity_of_mul_lt esc Delta a b zoom hz hx
  have hsmall : ∀ z, 2 ≤ z → z ≤ 4 → ∀ (e : K → K → Nat),
      intensity e Delta a b z =
        Except.ok (sampleAverage (e (a + Delta) (b + Delta)) (e (a + Delta) (b - Delta))
          (e (a - Delta) (b - Delta)) (e (a - Delta) (b + Delta))) := by
    intro z hz2 hz4 e
    refine intensity_of_mul_lt e Delta a b z hz2 ?_
    have hle := sampleAverage_le (e (a + Delta) (b + Delta)) (e (a + Delta) (b - Delta))
      (e (a - Delta) (b - Delta)) (e (a - Delta) (b + Delta))
    calc _ ≤ 4 * 63 := Nat.mul_le_mul hz4 hle
      _ < 256 := by norm_num
  refine ⟨h, by rw [h]; rfl, hsmall, fun z hz2 hz4 hypot => ?_⟩
  unfold supersamplingCmplx128 supersamplingBigFloat
  rw [hsmall z hz2 hz4, hsmall 2 (le_refl _) (by norm_num), hsmall z hz2 hz4,
    hsmall 2 (le_refl _) (by norm_num)]
  exact ⟨rfl, rfl⟩

/-- C19 at `zoom = 5` with every escape count `40`, where `5 * 40 < 256`. -/
theorem intensity_eq_round_value_witness :
    intensity (fun _ _ : ℚ => 40) 1 0 0 5 =
      Except.ok (sampleAverage ((fun _ _ : ℚ => 40) ((0 : ℚ) + 1) ((0 : ℚ) + 1))
        ((fun _ _ : ℚ => 40) ((0 : ℚ) + 1) ((0 : ℚ) - 1))
        ((fun _ _ : ℚ => 40) ((0 : ℚ) - 1) ((0 : ℚ) - 1))
        ((fun _ _ : ℚ => 40) ((0 : ℚ) - 1) ((0 : ℚ) + 1))) ∧
    (intensity (fun _ _ : ℚ => 40) 1 0 0 5).map colorSwitch =
      Except.ok (colorSwitch (sampleAverage ((fun _ _ : ℚ => 40) ((0 : ℚ) + 1) ((0 : ℚ) + 1))
        ((fun _ _ : ℚ => 40) ((0 : ℚ) + 1) ((0 : ℚ) - 1))
        ((fun _ _ : ℚ => 40) ((0 : ℚ) - 1) ((0 : ℚ) - 1))
        ((fun _ _ : ℚ => 40) ((0 : ℚ) - 1) ((0 : ℚ) + 1)))) ∧
    (∀ z, 2 ≤ z → z ≤ 4 → ∀ (e : ℚ → ℚ → Nat),
      intensity e 1 0 0 z =
        Except.ok (sampleAverage (e (0 + 1) (0 + 1)) (e (0 + 1) (0 - 1))
          (e (0 - 1) (0 - 1)) (e (0 - 1) (0 + 1)))) ∧
    (∀ z, 2 ≤ z → z ≤ 4 → ∀ (hypot : ℚ → ℚ → ℚ),
      supersamplingCmplx128 hypot 1 0 0 z = supersamplingCmplx128 hypot 1 0 0 2 ∧
      supersamplingBigFloat (0 : ℚ) 0 1 z = supersamplingBigFloat (0 : ℚ) 0 1 2) :=
  intensity_eq_round_value (fun _ _ : ℚ => 40) 1 0 0 5 (by decide)
    (by norm_num [sampleAverage])

/-- C20: in the top band the colour map has period `64`: for `126 < p` and `p + 64 <= 255` the
colour of `p` is the colour of `p + 64`; `128` and `192` both give `(0, 0, 8, 240)`, so the
colour switch is not injective on the non-boundary intensities of `[0,200)`. -/
theorem colorSwitch_period_64 (p : Nat) (h1 : 126 < p) (h2 : p + 64 ≤ 255) :
    colorSwitch p = colorSwitch (p + 64) ∧
    colorSwitch 128 = Color.RGBA 0 0 8 240 ∧ colorSwitch 192 = Color.RGBA 0 0 8 240 ∧
    (∃ q r, q ≠ r ∧ q < 200 ∧ r < 200 ∧ q ≠ 0 ∧ q ≠ 63 ∧ q ≠ 126 ∧ r ≠ 0 ∧ r ≠ 63 ∧ r ≠ 126 ∧
      colorSwitch q = colorSwitch r) := by
  refine ⟨?_, by decide, by decide, 128, 192, by decide⟩
  unfold colorSwitch
  rw [if_neg (by omega), if_neg (by omega), if_pos h1, if_neg (by omega), if_neg (by omega),
    if_pos (by omega)]
  have e1 : (p + 64) * 4 % 256 = p * 4 % 256 := by omega
  have e2 : (p + 64 + 256 - 126) % 256 * 4 % 256 = (p + 256 - 126) % 256 * 4 % 256 := by omega
  rw [e1, e2]

/-- C20 at the intensity `128`. -/
theorem colorSwitch_period_64_witness :
    colorSwitch 128 = colorSwitch (128 + 64) ∧
    colorSwitch 128 = Color.RGBA 0 0 8 240 ∧ colorSwitch 192 = Color.RGBA 0 0 8 240 ∧
    (∃ q r, q ≠ r ∧ q < 200 ∧ r < 200 ∧ q ≠ 0 ∧ q ≠ 63 ∧ q ≠ 126 ∧ r ≠ 0 ∧ r ≠ 63 ∧ r ≠ 126 ∧
      colorSwitch q = colorSwitch r) :=
  colorSwitch_period_64 128 (by decide) (by decide)

/-! ### The rendered image -/

theorem mapM_ok {α β : Type} (f : α → β) (l : List α) :
    l.mapM (fun x => (Except.ok (f x) : Except Panic β)) = Except.ok (l.map f) := by
  induction l with
  | nil => rfl
  | cons x xs ih =>
    rw [List.mapM_cons, ih]
    rfl

theorem supersamplingCmplx128_pos {K : Type} [LinearOrderedField K] (hypot : K → K → K)
    (Delta a b : K) (zoom : Nat) (hz : zoom ≠ 0) :
    supersamplingCmplx128 hypot Delta a b zoom =
      Except.ok (colorSwitch (samplingLoop (fun x y => mandelbrotCmplx128 hypot ⟨x, y⟩)
        Delta a b zoom
        (if zoom = 1 then mandelbrotCmplx128 hypot ⟨a, b⟩ else 0) / zoom)) := by
  unfold supersamplingCmplx128
  rw [intensity_pos _ Delta a b zoom hz]
  rfl

/-- For `zoom != 0` the render ends without a panic, and the pixel `(px, py)` of the image is
the converted colour that `supersamplingCmplx128` returns for the point of the pixel. -/
theorem GenMandelbrotCmplx128_pixel {K : Type} [LinearOrderedField K] (hypot : K → K → K)
    (c : Config K) (zoom : Nat) (hz : zoom ≠ 0) (px py : Nat) (hpx : px < c.Width.toNat)
    (hpy : py < c.Height.toNat) (col : Color)
    (hcol : supersamplingCmplx128 hypot c.Delta (coordX c px) (coordY c py) zoom
      = Except.ok col) :
    ∃ img, GenMandelbrotCmplx128 hypot c zoom = Except.ok img ∧
      pixelAt img px py = some (rgbaModel col) := by
  have himg : GenMandelbrotCmplx128 hypot c zoom =
      Except.ok ((List.range c.Height.toNat).map fun py =>
        (List.range c.Width.toNat).map fun px =>
          rgbaModel (colorSwitch (samplingLoop (fun x y => mandelbrotCmplx128 hypot ⟨x, y⟩)
            c.Delta (coordX c px) (coordY c py) zoom
            (if zoom = 1 then mandelbrotCmplx128 hypot ⟨coordX c px, coordY c py⟩ else 0)
            / zoom))) := by
    unfold GenMandelbrotCmplx128
    simp only [supersamplingCmplx128_pos hypot c.Delta _ _ zoom hz]
    simp only [Except.map, mapM_ok]
  refine ⟨_, himg, ?_⟩
  rw [supersamplingCmplx128_pos hypot c.Delta _ _ zoom hz] at hcol
  have hcol' := Except.ok.inj hcol
  simp [pixelAt, List.get?_eq_getElem?, List.getElem?_map, List.getElem?_range hpy,
    List.getElem?_range hpx, hcol']
/-- A point of modulus at most `1/4` has an orbit that stays in the disc of radius `1/2`. -/
theorem orbit_abs_le_half (z : ℂ) (hz : Complex.abs z ≤ 1 / 4) (k : Nat) :
    Complex.abs (orbit z k) ≤ 1 / 2 := by
  induction k with
  | zero =>
    simp only [orbit, map_zero]
    norm_num
  | succ k ih =>
    have h0 : 0 ≤ Complex.abs (orbit z k) := by positivity
    calc Complex.abs (orbit z (k + 1))
        = Complex.abs (orbit z k * orbit z k + z) := rfl
      _ ≤ Complex.abs (orbit z k * orbit z k) + Complex.abs z := Complex.abs.add_le _ _
      _ = Complex.abs (orbit z k) * Complex.abs (orbit z k) + Complex.abs z := by
        rw [map_mul]
      _ ≤ 1 / 2 * (1 / 2) + 1 / 4 := by
        have := mul_le_mul ih ih h0 (by norm_num : (0 : ℝ) ≤ 1 / 2)
        linarith
      _ = 1 / 2 := by norm_num

/-- A point of modulus at most `1/4` never escapes, and gets the escape count `0`. -/
theorem escape_count_zero_of_sq_le (r i : ℝ) (h : r * r + i * i ≤ 1 / 16) :
    (∀ n, n < 200 → Complex.abs (orbit (Complex128.mk r i).toComplex (n + 1)) ≤ 2) ∧
    mandelbrotCmplx128 (fun p q => Real.sqrt (p * p + q * q)) (Complex128.mk r i) = 0 := by
  have habs : Complex.abs (Complex128.mk r i).toComplex ≤ 1 / 4 := by
    rw [← cmplxAbs_eq_abs]
    simp only [cmplxAbs]
    rw [Real.sqrt_le_iff]
    constructor
    · norm_num
    · norm_num
      linarith
  have hall : ∀ n, n < 200 →
      Complex.abs (orbit (Complex128.mk r i).toComplex (n + 1)) ≤ 2 := by
    intro n _
    have := orbit_abs_le_half _ habs (n + 1)
    linarith
  exact ⟨hall, mandelbrotCmplx128_of_never _ hall⟩

/-- With escape count `0` at the centre and at the four offset points, `zoom = 1` gives the
intensity `0` and the colour `color.Black`. -/
theorem supersamplingCmplx128_black {K : Type} [LinearOrderedField K] (hypot : K → K → K)
    (Delta a b : K) (h0 : mandelbrotCmplx128 hypot ⟨a, b⟩ = 0)
    (h1 : mandelbrotCmplx128 hypot ⟨a + Delta, b + Delta⟩ = 0)
    (h2 : mandelbrotCmplx128 hypot ⟨a + Delta, b - Delta⟩ = 0)
    (h3 : mandelbrotCmplx128 hypot ⟨a - Delta, b - Delta⟩ = 0)
    (h4 : mandelbrotCmplx128 hypot ⟨a - Delta, b + Delta⟩ = 0) :
    intensity (fun x y => mandelbrotCmplx128 hypot ⟨x, y⟩) Delta a b 1 = Except.ok 0 ∧
    supersamplingCmplx128 hypot Delta a b 1 = Except.ok Black := by
  have hi : intensity (fun x y => mandelbrotCmplx128 hypot ⟨x, y⟩) Delta a b 1
      = Except.ok 0 := by
    rw [intensity_one _ Delta a b (by simp only [h0]; norm_num)]
    simp only [h0, h1, h2, h3, h4]
    rfl
  refine ⟨hi, ?_⟩
  unfold supersamplingCmplx128
  rw [hi]
  rfl

/-- The sample points of a pixel at the corner `(-2, -2)`: all five escape in the first pass. -/
theorem corner_counts_zero (d : ℝ) (hd0 : 0 ≤ d) (hd : d ≤ 1 / 2) :
    mandelbrotCmplx128 (fun p q => Real.sqrt (p * p + q * q)) (Complex128.mk (-2) (-2)) = 0 ∧
    mandelbrotCmplx128 (fun p q => Real.sqrt (p * p + q * q))
      (Complex128.mk (-2 + d) (-2 + d)) = 0 ∧
    mandelbrotCmplx128 (fun p q => Real.sqrt (p * p + q * q))
      (Complex128.mk (-2 + d) (-2 - d)) = 0 ∧
    mandelbrotCmplx128 (fun p q => Real.sqrt (p * p + q * q))
      (Complex128.mk (-2 - d) (-2 - d)) = 0 ∧
    mandelbrotCmplx128 (fun p q => Real.sqrt (p * p + q * q))
      (Complex128.mk (-2 - d) (-2 + d)) = 0 := by
  refine ⟨?_, ?_, ?_, ?_, ?_⟩ <;>
    refine (escape_count_zero_of_sq_gt_four _ _ ?_).1 <;> nlinarith

/-- The sample points of a pixel at the origin: none of the five escapes. -/
theorem origin_counts_zero (d : ℝ) (hd : d * d ≤ 1 / 32) :
    mandelbrotCmplx128 (fun p q => Real.sqrt (p * p + q * q)) (Complex128.mk 0 0) = 0 ∧
    mandelbrotCmplx128 (fun p q => Real.sqrt (p * p + q * q))
      (Complex128.mk (0 + d) (0 + d)) = 0 ∧
    mandelbrotCmplx128 (fun p q => Real.sqrt (p * p + q * q))
      (Complex128.mk (0 + d) (0 - d)) = 0 ∧
    mandelbrotCmplx128 (fun p q => Real.sqrt (p * p + q * q))
      (Complex128.mk (0 - d) (0 - d)) = 0 ∧
    mandelbrotCmplx128 (fun p q => Real.sqrt (p * p + q * q))
      (Complex128.mk (0 - d) (0 + d)) = 0 := by
  refine ⟨?_, ?_, ?_, ?_, ?_⟩ <;>
    refine (escape_count_zero_of_sq_le _ _ ?_).2 <;> nlinarith

theorem coord_4x4 (d : ℝ) :
    coordX (((Config.init.setWidth 4).setHeight 4).setDelta d) 0 = -2 ∧
    coordY (((Config.init.setWidth 4).setHeight 4).setDelta d) 0 = -2 ∧
    coordX (((Config.init.setWidth 4).setHeight 4).setDelta d) 2 = 0 ∧
    coordY (((Config.init.setWidth 4).setHeight 4).setDelta d) 2 = 0 := by
  simp only [coordX_eq, coordY_eq, Config.setWidth, Config.setHeight, Config.setDelta,
    Config.init]
  norm_num

/-- The configuration of a `4 x 4` render, after `Width = 4` and `Height = 4`, holds the
`Delta` of the package initialisation. -/
theorem config_4x4 :
    ((Config.init.setWidth 4).setHeight 4 : Config ℝ) =
      ((Config.init.setWidth 4).setHeight 4).setDelta (0.3 / 1024) := by
  simp [Config.setWidth, Config.setHeight, Config.setDelta, Config.init]

/-- The corner pixel `(0, 0)` of a `4 x 4` render at `zoom = 1`, for a sample delta `d` in
`[0, 1/2]`: the colour returned for it is `color.Black`. -/
theorem corner_pixel_4x4 (d : ℝ) (hd0 : 0 ≤ d) (hd : d ≤ 1 / 2) :
    supersamplingCmplx128 (fun p q => Real.sqrt (p * p + q * q))
        (((Config.init.setWidth 4).setHeight 4).setDelta d).Delta
        (coordX (((Config.init.setWidth 4).setHeight 4).setDelta d) 0)
        (coordY (((Config.init.setWidth 4).setHeight 4).setDelta d) 0) 1 = Except.ok Black := by
  obtain ⟨hx, hy, _, _⟩ := coord_4x4 d
  obtain ⟨h0, h1, h2, h3, h4⟩ := corner_counts_zero d hd0 hd
  rw [hx, hy]
  exact (supersamplingCmplx128_black _ d (-2) (-2) h0 h1 h2 h3 h4).2

/-- The centre pixel `(2, 2)` of a `4 x 4` render at `zoom = 1`, for a sample delta `d` with
`d * d <= 1/32`: the colour returned for it is `color.Black`. -/
theorem centre_pixel_4x4 (d : ℝ) (hd : d * d ≤ 1 / 32) :
    supersamplingCmplx128 (fun p q => Real.sqrt (p * p + q * q))
        (((Config.init.setWidth 4).setHeight 4).setDelta d).Delta
        (coordX (((Config.init.setWidth 4).setHeight 4).setDelta d) 2)
        (coordY (((Config.init.setWidth 4).setHeight 4).setDelta d) 2) 1 = Except.ok Black := by
  obtain ⟨_, _, hx, hy⟩ := coord_4x4 d
  obtain ⟨h0, h1, h2, h3, h4⟩ := origin_counts_zero d hd
  rw [hx, hy]
  exact (supersamplingCmplx128_black _ d 0 0 h0 h1 h2 h3 h4).2
/-- C12 as stated fails: in the `4 x 4` render at `zoom = 1` the colour returned for the
corner pixel `(0, 0)` is `color.Black`, the pixel stored is `(0, 0, 0, 255)`, and it is no
colour `(R, 0, 0, 240)` of the red band. -/
theorem corner_pixel_not_red_band :
    supersamplingCmplx128 (fun p q => Real.sqrt (p * p + q * q))
        ((Config.init.setWidth 4).setHeight 4 : Config ℝ).Delta
        (coordX ((Config.init.setWidth 4).setHeight 4 : Config ℝ) 0)
        (coordY ((Config.init.setWidth 4).setHeight 4 : Config ℝ) 0) 1 = Except.ok Black ∧
    (∀ R, Black ≠ Color.RGBA R 0 0 240) ∧
    ∃ img, GenMandelbrotCmplx128 (fun p q => Real.sqrt (p * p + q * q))
        ((Config.init.setWidth 4).setHeight 4 : Config ℝ) 1 = Except.ok img ∧
      pixelAt img 0 0 = some (Color.RGBA 0 0 0 255) ∧
      ¬ ∃ R, 0 < R ∧ pixelAt img 0 0 = some (Color.RGBA R 0 0 240) := by
  have hb := corner_pixel_4x4 (0.3 / 1024) (by norm_num) (by norm_num)
  rw [← config_4x4] at hb
  obtain ⟨img, himg, hpix⟩ := GenMandelbrotCmplx128_pixel _
    ((Config.init.setWidth 4).setHeight 4 : Config ℝ) 1 (by decide) 0 0
    (by simp [Config.setWidth, Config.setHeight, Config.init])
    (by simp [Config.setWidth, Config.setHeight, Config.init]) Black hb
  refine ⟨hb, fun R h => (by cases h), img, himg, hpix, ?_⟩
  rintro ⟨R, _, hR⟩
  rw [hpix] at hR
  cases hR

/-- C12, as the code behaves: in the `4 x 4` render at `zoom = 1`, in exact arithmetic, the
corner pixel `(0, 0)` maps to the point `(-2, -2)`; that point and the four offset points
escape in the first pass of the loop, so every escape count is `0`, the intensity is `0` and
the pixel is coloured black: `color.Black`, stored as `(0, 0, 0, 255)`.  The same holds when
`Delta` is set to `0.3 / 4`. -/
theorem corner_pixel_black :
    coordinate ((Config.init.setWidth 4).setHeight 4 : Config ℝ) 0 0 = (-2, -2) ∧
    ((Config.init.setWidth 4).setHeight 4 : Config ℝ).Delta = 0.3 / 1024 ∧
    (∀ z ∈ [Complex128.mk (-2 : ℝ) (-2), Complex128.mk (-2 + 0.3 / 1024) (-2 + 0.3 / 1024),
        Complex128.mk (-2 + 0.3 / 1024) (-2 - 0.3 / 1024),
        Complex128.mk (-2 - 0.3 / 1024) (-2 - 0.3 / 1024),
        Complex128.mk (-2 - 0.3 / 1024) (-2 + 0.3 / 1024)],
      mandelbrotCmplx128 (fun p q => Real.sqrt (p * p + q * q)) z = 0) ∧
    intensity (fun x y => mandelbrotCmplx128 (fun p q => Real.sqrt (p * p + q * q)) ⟨x, y⟩)
      (0.3 / 1024) (-2) (-2) 1 = Except.ok 0 ∧
    supersamplingCmplx128 (fun p q => Real.sqrt (p * p + q * q))
        ((Config.init.setWidth 4).setHeight 4 : Config ℝ).Delta
        (coordX ((Config.init.setWidth 4).setHeight 4 : Config ℝ) 0)
        (coordY ((Config.init.setWidth 4).setHeight 4 : Config ℝ) 0) 1 = Except.ok Black ∧
    (∃ img, GenMandelbrotCmplx128 (fun p q => Real.sqrt (p * p + q * q))
        ((Config.init.setWidth 4).setHeight 4 : Config ℝ) 1 = Except.ok img ∧
      pixelAt img 0 0 = some (Color.RGBA 0 0 0 255)) ∧
    (∃ img, GenMandelbrotCmplx128 (fun p q => Real.sqrt (p * p + q * q))
        (((Config.init.setWidth 4).setHeight 4 : Config ℝ).setDelta (0.3 / 4)) 1
          = Except.ok img ∧
      pixelAt img 0 0 = some (Color.RGBA 0 0 0 255)) := by
  have hb := corner_pixel_4x4 (0.3 / 1024) (by norm_num) (by norm_num)
  rw [← config_4x4] at hb
  have hb' := corner_pixel_4x4 (0.3 / 4) (by norm_num) (by norm_num)
  obtain ⟨hx, hy, _, _⟩ := coord_4x4 (0.3 / 1024)
  rw [← config_4x4] at hx hy
  obtain ⟨h0, h1, h2, h3, h4⟩ := corner_counts_zero (0.3 / 1024) (by norm_num) (by norm_num)
  refine ⟨by rw [coordinate, hx, hy], by rw [config_4x4]; rfl, ?_,
    (supersamplingCmplx128_black _ (0.3 / 1024) (-2) (-2) h0 h1 h2 h3 h4).1, hb, ?_, ?_⟩
  · intro z hz
    simp only [List.mem_cons, List.mem_singleton, List.mem_nil_iff, or_false] at hz
    rcases hz with rfl | rfl | rfl | rfl | rfl
    · exact h0
    · exact h1
    · exact h2
    · exact h3
    · exact h4
  · exact GenMandelbrotCmplx128_pixel _
      ((Config.init.setWidth 4).setHeight 4 : Config ℝ) 1 (by decide) 0 0
      (by simp [Config.setWidth, Config.setHeight, Config.init])
      (by simp [Config.setWidth, Config.setHeight, Config.init]) Black hb
  · exact GenMandelbrotCmplx128_pixel _
      (((Config.init.setWidth 4).setHeight 4 : Config ℝ).setDelta (0.3 / 4)) 1 (by decide) 0 0
      (by simp [Config.setWidth, Config.setHeight, Config.setDelta, Config.init])
      (by simp [Config.setWidth, Config.setHeight, Config.setDelta, Config.init]) Black hb'

/-- C13: in the `4 x 4` render at `zoom = 1`, in exact arithmetic, the centre pixel `(2, 2)`
maps to the origin `(0, 0)`; the origin and the four offset points `(±Delta, ±Delta)` stay in
the disc of radius `2` for 200 iterations, so every escape count is `0`, the intensity is `0`
and the pixel is coloured exactly black: `color.Black`, stored as `(0, 0, 0, 255)`.  The same
holds when `Delta` is set to `0.3 / 4`. -/
theorem centre_pixel_black :
    coordinate ((Config.init.setWidth 4).setHeight 4 : Config ℝ) 2 2 = (0, 0) ∧
    ((Config.init.setWidth 4).setHeight 4 : Config ℝ).Delta = 0.3 / 1024 ∧
    (∀ z ∈ [Complex128.mk (0 : ℝ) 0, Complex128.mk (0 + 0.3 / 1024) (0 + 0.3 / 1024),
        Complex128.mk (0 + 0.3 / 1024) (0 - 0.3 / 1024),
        Complex128.mk (0 - 0.3 / 1024) (0 - 0.3 / 1024),
        Complex128.mk (0 - 0.3 / 1024) (0 + 0.3 / 1024)],
      (∀ n, n < 200 → Complex.abs (orbit z.toComplex (n + 1)) ≤ 2) ∧
      mandelbrotCmplx128 (fun p q => Real.sqrt (p * p + q * q)) z = 0) ∧
    intensity (fun x y => mandelbrotCmplx128 (fun p q => Real.sqrt (p * p + q * q)) ⟨x, y⟩)
      (0.3 / 1024) 0 0 1 = Except.ok 0 ∧
    supersamplingCmplx128 (fun p q => Real.sqrt (p * p + q * q))
        ((Config.init.setWidth 4).setHeight 4 : Config ℝ).Delta
        (coordX ((Config.init.setWidth 4).setHeight 4 : Config ℝ) 2)
        (coordY ((Config.init.setWidth 4).setHeight 4 : Config ℝ) 2) 1 = Except.ok Black ∧
    (∃ img, GenMandelbrotCmplx128 (fun p q => Real.sqrt (p * p + q * q))
        ((Config.init.setWidth 4).setHeight 4 : Config ℝ) 1 = Except.ok img ∧
      pixelAt img 2 2 = some (Color.RGBA 0 0 0 255)) ∧
    (∃ img, GenMandelbrotCmplx128 (fun p q => Real.sqrt (p * p + q * q))
        (((Config.init.setWidth 4).setHeight 4 : Config ℝ).setDelta (0.3 / 4)) 1
          = Except.ok img ∧
      pixelAt img 2 2 = some (Color.RGBA 0 0 0 255)) := by
  have hb := centre_pixel_4x4 (0.3 / 1024) (by norm_num)
  rw [← config_4x4] at hb
  have hb' := centre_pixel_4x4 (0.3 / 4) (by norm_num)
  obtain ⟨_, _, hx, hy⟩ := coord_4x4 (0.3 / 1024)
  rw [← config_4x4] at hx hy
  obtain ⟨h0, h1, h2, h3, h4⟩ := origin_counts_zero (0.3 / 1024) (by norm_num)
  refine ⟨by rw [coordinate, hx, hy], by rw [config_4x4]; rfl, ?_,
    (supersamplingCmplx128_black _ (0.3 / 1024) 0 0 h0 h1 h2 h3 h4).1, hb, ?_, ?_⟩
  · intro z hz
    simp only [List.mem_cons, List.mem_singleton, List.mem_nil_iff, or_false] at hz
    rcases hz with rfl | rfl | rfl | rfl | rfl <;>
      exact escape_count_zero_of_sq_le _ _ (by norm_num)
  · exact GenMandelbrotCmplx128_pixel _
      ((Config.init.setWidth 4).setHeight 4 : Config ℝ) 1 (by decide) 2 2
      (by simp [Config.setWidth, Config.setHeight, Config.init])
      (by simp [Config.setWidth, Config.setHeight, Config.init]) Black hb
  · exact GenMandelbrotCmplx128_pixel _
      (((Config.init.setWidth 4).setHeight 4 : Config ℝ).setDelta (0.3 / 4)) 1 (by decide) 2 2
      (by simp [Config.setWidth, Config.setHeight, Config.setDelta, Config.init])
      (by simp [Config.setWidth, Config.setHeight, Config.setDelta, Config.init]) Black hb'

end Mandelbrotlib
